import Mathlib

/-!
Verification of the ticket allocation and drawing engine of the Big Dollar
raffle system (`src/utils/ticketSystem.ts`).

The TypeScript source is embedded shallowly:

* JS numbers used as ticket counts are modelled as `Int` (the source performs
  no validation, so negative counts are representable); ticket numbers
  themselves are `Nat` (the allocator only ever produces `1..N`).
* `Math.random()`-derived indices are modelled by oracle functions:
  `rand : Nat → Nat` gives, for each loop index `i` of the shuffle, the value
  `Math.floor(Math.random() * (i + 1))`; `rs : Nat → Nat → Nat` gives, for
  each draw step and candidate-list length `n`, the value
  `Math.floor(Math.random() * n)`.  The mathematical fact that these values
  are in range (`rand i ≤ i`, `rs k n < n` for `n > 0`) appears as a
  hypothesis on theorems.
* Exceptions: the source never throws; the exception-aware wrappers
  (`assignTicketsToGuidesE`, `drawRandomTicketsE`) therefore always return
  `Except.ok`.
-/

namespace TicketSystem

/-- A participant as fed to the allocator: `Guide` from `../types` restricted
to the field the engine reads (`totalTickets`), plus an identity. -/
structure Guide where
  id : Nat
  totalTickets : Int
deriving DecidableEq, Repr

/-- `GuideWithTickets` from `ticketSystem.ts`: a guide plus its assigned
`ticketNumbers` and the derived `ticketRange = {start, end}`. -/
structure GuideWithTickets where
  id : Nat
  totalTickets : Int
  ticketNumbers : List Nat
  ticketRange : Nat × Nat
deriving DecidableEq, Repr

/-- The JS destructuring swap
`[allTickets[i], allTickets[j]] = [allTickets[j], allTickets[i]]`:
position `i` receives the old value at `j` and position `j` the old value at
`i` (reads happen before writes). -/
def listSwap (l : List Nat) (i j : Nat) : List Nat :=
  (l.set i (l.getD j 0)).set j (l.getD i 0)

/-- The shuffle loop of `assignTicketsToGuides`:
`for (let i = allTickets.length - 1; i > 0; i--)` swapping index `i` with
`j = Math.floor(Math.random() * (i + 1))` (the oracle value `rand i`). -/
def fyLoop (rand : Nat → Nat) : Nat → List Nat → List Nat
  | 0, l => l
  | i + 1, l => fyLoop rand i (listSwap l (i + 1) (rand (i + 1)))

/-- The full Fisher–Yates shuffle of `assignTicketsToGuides`, starting at
index `length - 1`. -/
def fisherYatesShuffle (rand : Nat → Nat) (l : List Nat) : List Nat :=
  fyLoop rand (l.length - 1) l

/-- `guides.reduce((sum, guide) => sum + guide.totalTickets, 0)` followed by
`Array.from({length: totalTickets})`: JS `ToLength` clamps a negative total
to `0`, which `Int.toNat` models. -/
def totalTicketCount (guides : List Guide) : Nat :=
  ((guides.map Guide.totalTickets).sum).toNat

/-- One output record of the allocator: the assigned slice is sorted
ascending (`ticketNumbers.sort((a, b) => a - b)`, modelled as a stable
ascending sort) and `ticketRange` is `{start: min, end: max}`, or `{0, 0}`
for an empty assignment. -/
def buildGuide (g : Guide) (tn : List Nat) : GuideWithTickets :=
  let sorted := tn.insertionSort (· ≤ ·)
  { id := g.id
    totalTickets := g.totalTickets
    ticketNumbers := sorted
    ticketRange := ((sorted.min?).getD 0, (sorted.max?).getD 0) }

/-- The assignment walk of `assignTicketsToGuides`: each guide consumes the
next `totalTickets` entries of the shuffled array (the
`ticketIndex < allTickets.length` guard makes the loop stop at the end of
the array, which `take` models; a negative count runs the inner loop zero
times, which `Int.toNat` models). -/
def assignLoop : List Guide → List Nat → List GuideWithTickets
  | [], _ => []
  | g :: gs, tickets =>
      buildGuide g (tickets.take g.totalTickets.toNat) ::
        assignLoop gs (tickets.drop g.totalTickets.toNat)

/-- `assignTicketsToGuides` from `ticketSystem.ts`: shuffle `[1..N]` with
Fisher–Yates, then hand out contiguous slices in input order. -/
def assignTicketsToGuides (guides : List Guide) (rand : Nat → Nat) :
    List GuideWithTickets :=
  assignLoop guides (fisherYatesShuffle rand (List.range' 1 (totalTicketCount guides)))

/-- `allAvailableTickets` of `drawRandomTicket`: one `{ticket, guide}` entry
per element of each guide's `ticketNumbers`, in pool order. -/
def flattenTickets (pool : List GuideWithTickets) : List (Nat × GuideWithTickets) :=
  pool.flatMap fun g => g.ticketNumbers.map fun t => (t, g)

/-- `drawRandomTicket` from `ticketSystem.ts`: returns
`{winner: null, drawnTicket: null}` on an empty candidate list, otherwise
the entry at index `Math.floor(Math.random() * length)` (the oracle value
`r length`). -/
def drawRandomTicket (pool : List GuideWithTickets) (r : Nat → Nat) :
    Option GuideWithTickets × Option Nat :=
  let all := flattenTickets pool
  if all = [] then (none, none)
  else
    match all[r all.length]? with
    | some tg => (some tg.2, some tg.1)
    | none => (none, none)

/-- The `{winners, drawnTickets}` record returned by `drawRandomTickets`. -/
structure DrawOutcome where
  winners : List GuideWithTickets
  drawnTickets : List Nat
deriving DecidableEq, Repr

/-- The loop body of `drawRandomTickets`:
`for (let i = 0; i < count && availableGuides.length > 0; i++)`, guarded by
the JS truthiness test `if (winnerGuide && drawnTicket)` (a drawn ticket
numbered `0` is falsy), and evicting the winner with
`availableGuides.splice(availableGuides.indexOf(winnerGuide), 1)`, i.e.
removal of the first occurrence (`List.erase`).  The fuel is the remaining
iteration count. -/
def drawRandomTicketsAux (rs : Nat → Nat → Nat) :
    Nat → Nat → List GuideWithTickets → DrawOutcome
  | _, 0, _ => ⟨[], []⟩
  | step, n + 1, avail =>
    if avail = [] then ⟨[], []⟩
    else
      match drawRandomTicket avail (rs step) with
      | (some w, some t) =>
        if t ≠ 0 then
          let rest := drawRandomTicketsAux rs (step + 1) n (avail.erase w)
          ⟨w :: rest.winners, t :: rest.drawnTickets⟩
        else drawRandomTicketsAux rs (step + 1) n avail
      | _ => drawRandomTicketsAux rs (step + 1) n avail

/-- `drawRandomTickets` from `ticketSystem.ts`: up to `count` draws over a
copy of the input pool (a non-positive `count` runs the loop zero times,
which `Int.toNat` models). -/
def drawRandomTickets (pool : List GuideWithTickets) (count : Int)
    (rs : Nat → Nat → Nat) : DrawOutcome :=
  drawRandomTicketsAux rs 0 count.toNat pool

/-- The error taxonomy named by the specification.  The source constructs no
error value anywhere. -/
inductive TicketError
  | invalidInput
deriving DecidableEq, Repr

/-- Exception-aware semantics of `assignTicketsToGuides`: the source
function contains no `throw`, so every input returns normally. -/
def assignTicketsToGuidesE (guides : List Guide) (rand : Nat → Nat) :
    Except TicketError (List GuideWithTickets) :=
  Except.ok (assignTicketsToGuides guides rand)

/-- Exception-aware semantics of `drawRandomTickets`: the source function
contains no `throw`, so every input returns normally. -/
def drawRandomTicketsE (pool : List GuideWithTickets) (count : Int)
    (rs : Nat → Nat → Nat) : Except TicketError DrawOutcome :=
  Except.ok (drawRandomTickets pool count rs)

/-- A fixed random oracle (always index `0`) used to instantiate theorems on
concrete inputs. -/
def rand0 : Nat → Nat := fun _ => 0

/-- A fixed per-step random oracle (always index `0`) used to instantiate
theorems on concrete inputs. -/
def rs0 : Nat → Nat → Nat := fun _ _ => 0

/-- The total number of tickets actually handed out, as a sum of clamped
per-guide counts. -/
def sumTicketsNat (gs : List Guide) : Nat :=
  (gs.map (fun g => g.totalTickets.toNat)).sum

/-- Modelled from the spec: the reference Fisher–Yates swap, written
positionally — position `i` takes the old element at `j`, position `j`
takes the old element at `i`, everything else is untouched. -/
def specSwap (l : List Nat) (i j : Nat) : List Nat :=
  l.mapIdx fun k x => if k = i then l.getD j 0 else if k = j then l.getD i 0 else x

/-- Modelled from the spec: "for index i from N−1 down to 1, swap element i
with element at a uniformly chosen index in `[0, i]`". -/
def specFyLoop (rand : Nat → Nat) : Nat → List Nat → List Nat
  | 0, l => l
  | i + 1, l => specFyLoop rand i (specSwap l (i + 1) (rand (i + 1)))

/-- Modelled from the spec: the unbiased Fisher–Yates / Knuth shuffle over a
sequence, driven by the same random choices as the source. -/
def specFisherYates (rand : Nat → Nat) (l : List Nat) : List Nat :=
  specFyLoop rand (l.length - 1) l

/-- A guide object as it lives in the JS heap: its `ticketNumbers` array is
held by reference (`ticketsLoc`). -/
structure HGuide where
  id : Nat
  totalTickets : Int
  ticketsLoc : Nat
  ticketRange : Nat × Nat
deriving DecidableEq, Repr

/-- The mutable store relevant to the draw engine: ticket-number arrays,
guide arrays, and the next free guide-array location (`fresh`). -/
structure Heap where
  ticketArrays : Nat → List Nat
  guideArrays : Nat → List HGuide
  fresh : Nat

/-- Dereference `guide.ticketNumbers`. -/
def readTickets (σ : Heap) (g : HGuide) : List Nat :=
  σ.ticketArrays g.ticketsLoc

/-- `allAvailableTickets` of `drawRandomTicket`, reading ticket arrays from
the heap; the candidate list itself is a fresh local array that never
escapes, so it is kept as a value. -/
def hFlattenTickets (σ : Heap) (gs : List HGuide) : List (Nat × HGuide) :=
  gs.flatMap fun g => (readTickets σ g).map fun t => (t, g)

/-- `drawRandomTicket` over the heap model: it only reads the heap (its
return type contains no heap, mirroring the absence of writes in the
source). -/
def hDrawRandomTicket (σ : Heap) (gs : List HGuide) (r : Nat → Nat) :
    Option HGuide × Option Nat :=
  let all := hFlattenTickets σ gs
  if all = [] then (none, none)
  else
    match all[r all.length]? with
    | some tg => (some tg.2, some tg.1)
    | none => (none, none)

/-- Store a guide array at location `m`. -/
def writeGuideArray (σ : Heap) (m : Nat) (v : List HGuide) : Heap :=
  { σ with guideArrays := fun k => if k = m then v else σ.guideArrays k }

/-- The loop of `drawRandomTickets` over the heap model: `availableGuides`
lives at location `m` and `splice` is a write to that location; nothing
else is written. -/
def hDrawAux (rs : Nat → Nat → Nat) (m : Nat) :
    Nat → Nat → Heap → Heap × List HGuide × List Nat
  | _, 0, σ => (σ, [], [])
  | step, n + 1, σ =>
    if σ.guideArrays m = [] then (σ, [], [])
    else
      match hDrawRandomTicket σ (σ.guideArrays m) (rs step) with
      | (some w, some t) =>
        if t ≠ 0 then
          let σ1 := writeGuideArray σ m ((σ.guideArrays m).erase w)
          let res := hDrawAux rs m (step + 1) n σ1
          (res.1, w :: res.2.1, t :: res.2.2)
        else hDrawAux rs m (step + 1) n σ
      | _ => hDrawAux rs m (step + 1) n σ

/-- `drawRandomTickets` over the heap model:
`const availableGuides = [...guidesWithTickets]` allocates a fresh array
(location `σ.fresh`) holding a copy of the caller's array at `poolLoc`, and
the loop then works exclusively on that fresh location. -/
def hDrawRandomTickets (σ : Heap) (poolLoc : Nat) (count : Int)
    (rs : Nat → Nat → Nat) : Heap × List HGuide × List Nat :=
  let σ0 := { writeGuideArray σ σ.fresh (σ.guideArrays poolLoc) with
    fresh := σ.fresh + 1 }
  hDrawAux rs σ.fresh 0 count.toNat σ0

/-- A concrete heap used to instantiate the no-mutation theorem: one guide
whose tickets live at location `0`, pool array at every location, next free
location `3`. -/
def heap0 : Heap :=
  ⟨fun _ => [1], fun _ => [⟨1, 1, 0, (1, 1)⟩], 3⟩

theorem listSwap_length (l : List Nat) (i j : Nat) :
    (listSwap l i j).length = l.length := by
  simp [listSwap]

theorem listSwap_perm (l : List Nat) (i j : Nat) (hi : i < l.length)
    (hj : j < l.length) : (listSwap l i j).Perm l := by
  have hj' : j < (l.set i (l.getD j 0)).length := by simpa using hj
  rw [List.perm_iff_count]
  intro x
  rw [listSwap, List.count_set _ _ _ _ hj', List.count_set _ _ _ _ hi]
  have e1 : l.getD i 0 = l[i] := by
    simp [List.getD_eq_getElem?_getD, List.getElem?_eq_getElem hi]
  have e2 : l.getD j 0 = l[j] := by
    simp [List.getD_eq_getElem?_getD, List.getElem?_eq_getElem hj]
  have e3 : (l.set i (l.getD j 0))[j] = l.getD j 0 := by
    rw [List.getElem_set]
    split
    · rfl
    · exact e2.symm
  rw [e3, e1, e2]
  have hcnt : (if (l[i] == x) = true then 1 else 0) ≤ l.count x := by
    split
    · next h => exact List.one_le_count_iff.2 ((eq_of_beq h) ▸ List.getElem_mem hi)
    · exact Nat.zero_le _
  set A := if (l[i] == x) = true then 1 else 0 with hA
  set B := if (l[j] == x) = true then 1 else 0 with hB
  omega

theorem fyLoop_length (rand : Nat → Nat) : ∀ (i : Nat) (l : List Nat),
    (fyLoop rand i l).length = l.length
  | 0, _ => rfl
  | i + 1, l => by
    rw [fyLoop, fyLoop_length rand i, listSwap_length]

theorem fyLoop_perm (rand : Nat → Nat) (hr : ∀ k, rand k ≤ k) :
    ∀ (i : Nat) (l : List Nat), i < l.length → (fyLoop rand i l).Perm l
  | 0, l, _ => List.Perm.refl l
  | i + 1, l, h => by
    rw [fyLoop]
    have hswap : (listSwap l (i + 1) (rand (i + 1))).Perm l :=
      listSwap_perm l _ _ h (lt_of_le_of_lt (hr (i + 1)) h)
    have hlen : i < (listSwap l (i + 1) (rand (i + 1))).length := by
      rw [listSwap_length]; omega
    exact (fyLoop_perm rand hr i _ hlen).trans hswap

theorem fisherYatesShuffle_perm (rand : Nat → Nat) (hr : ∀ k, rand k ≤ k)
    (l : List Nat) : (fisherYatesShuffle rand l).Perm l := by
  cases l with
  | nil => exact List.Perm.refl _
  | cons a l =>
    exact fyLoop_perm rand hr _ _ (by simp)

theorem fisherYatesShuffle_length (rand : Nat → Nat) (l : List Nat) :
    (fisherYatesShuffle rand l).length = l.length :=
  fyLoop_length rand _ l

theorem totalTicketCount_eq (gs : List Guide)
    (h : ∀ g ∈ gs, 0 ≤ g.totalTickets) :
    totalTicketCount gs = sumTicketsNat gs := by
  induction gs with
  | nil => rfl
  | cons g gs ih =>
    have hg : 0 ≤ g.totalTickets := h g (List.mem_cons_self g gs)
    have hsum : 0 ≤ (gs.map Guide.totalTickets).sum := by
      apply List.sum_nonneg
      intro x hx
      obtain ⟨g', hg', rfl⟩ := List.mem_map.1 hx
      exact h g' (List.mem_cons_of_mem _ hg')
    have ih' := ih (fun g' h' => h g' (List.mem_cons_of_mem _ h'))
    unfold totalTicketCount sumTicketsNat at ih' ⊢
    simp only [List.map_cons, List.sum_cons]
    rw [Int.toNat_add hg hsum, ih']

theorem assignLoop_length : ∀ (gs : List Guide) (tickets : List Nat),
    (assignLoop gs tickets).length = gs.length
  | [], _ => rfl
  | _ :: gs, tickets => by
    simp [assignLoop, assignLoop_length gs]

theorem assignLoop_map_lengths : ∀ (gs : List Guide) (tickets : List Nat),
    sumTicketsNat gs ≤ tickets.length →
    (assignLoop gs tickets).map (fun g => g.ticketNumbers.length) =
      gs.map (fun g => g.totalTickets.toNat)
  | [], _, _ => rfl
  | g :: gs, tickets, h => by
    have hsplit : g.totalTickets.toNat + sumTicketsNat gs ≤ tickets.length := by
      simpa [sumTicketsNat] using h
    have htail : sumTicketsNat gs ≤ (tickets.drop g.totalTickets.toNat).length := by
      rw [List.length_drop]; omega
    simp only [assignLoop, List.map_cons, buildGuide, List.length_insertionSort,
      List.length_take]
    rw [assignLoop_map_lengths gs _ htail]
    congr 1
    omega

theorem assignLoop_flat_perm : ∀ (gs : List Guide) (tickets : List Nat),
    sumTicketsNat gs ≤ tickets.length →
    ((assignLoop gs tickets).flatMap GuideWithTickets.ticketNumbers).Perm
      (tickets.take (sumTicketsNat gs))
  | [], tickets, _ => by simp [assignLoop, sumTicketsNat]
  | g :: gs, tickets, h => by
    have hsplit : g.totalTickets.toNat + sumTicketsNat gs ≤ tickets.length := by
      simpa [sumTicketsNat] using h
    have htail : sumTicketsNat gs ≤ (tickets.drop g.totalTickets.toNat).length := by
      rw [List.length_drop]; omega
    have hsum : sumTicketsNat (g :: gs) = g.totalTickets.toNat + sumTicketsNat gs := by
      simp [sumTicketsNat]
    rw [hsum, List.take_add]
    simp only [assignLoop, List.flatMap_cons, buildGuide]
    exact List.Perm.append (List.perm_insertionSort _ _) (assignLoop_flat_perm gs _ htail)

theorem flat_nodup_pairwise : ∀ (l : List GuideWithTickets),
    (l.flatMap GuideWithTickets.ticketNumbers).Nodup →
    l.Pairwise (fun a b => ∀ t ∈ a.ticketNumbers, t ∉ b.ticketNumbers)
  | [], _ => List.Pairwise.nil
  | a :: l, h => by
    rw [List.flatMap_cons, List.nodup_append] at h
    obtain ⟨_, h2, hdisj⟩ := h
    refine List.Pairwise.cons ?_ (flat_nodup_pairwise l h2)
    intro b hb t ht htb
    exact hdisj ht (List.mem_flatMap.2 ⟨b, hb, htb⟩)

/-- C2: for non-negative integer ticket counts, `assignTicketsToGuides`
returns one output per participant, gives each participant exactly
`totalTickets` ticket numbers, and distributes the set `{1..N}`
(`N` the total) so that every number is held by exactly one participant
and the participants' ticket sets are pairwise disjoint. -/
theorem assignTicketsToGuides_partition (guides : List Guide) (rand : Nat → Nat)
    (hpos : ∀ g ∈ guides, 0 ≤ g.totalTickets) (hr : ∀ i, rand i ≤ i) :
    (assignTicketsToGuides guides rand).length = guides.length ∧
    (assignTicketsToGuides guides rand).map (fun g => g.ticketNumbers.length) =
      guides.map (fun g => g.totalTickets.toNat) ∧
    ((assignTicketsToGuides guides rand).flatMap GuideWithTickets.ticketNumbers).Perm
      (List.range' 1 (totalTicketCount guides)) ∧
    (assignTicketsToGuides guides rand).Pairwise
      (fun a b => ∀ t ∈ a.ticketNumbers, t ∉ b.ticketNumbers) ∧
    ∀ t, (t ∈ (assignTicketsToGuides guides rand).flatMap GuideWithTickets.ticketNumbers ↔
      1 ≤ t ∧ t ≤ totalTicketCount guides) := by
  set N := totalTicketCount guides with hN
  set shuffled := fisherYatesShuffle rand (List.range' 1 N) with hsh
  have hlen : shuffled.length = N := by
    rw [hsh, fisherYatesShuffle_length, List.length_range']
  have hperm : shuffled.Perm (List.range' 1 N) :=
    fisherYatesShuffle_perm rand hr _
  have hsum : sumTicketsNat guides = N := (totalTicketCount_eq guides hpos).symm
  have hle : sumTicketsNat guides ≤ shuffled.length := by rw [hlen, hsum]
  have hflat := assignLoop_flat_perm guides shuffled hle
  rw [hsum, ← hlen, List.take_length] at hflat
  have hflat' : ((assignTicketsToGuides guides rand).flatMap
      GuideWithTickets.ticketNumbers).Perm (List.range' 1 N) := hflat.trans hperm
  refine ⟨assignLoop_length guides shuffled, assignLoop_map_lengths guides shuffled hle,
    hflat', ?_, ?_⟩
  · exact flat_nodup_pairwise _ (hflat'.nodup_iff.2 (List.nodup_range' 1 N))
  · intro t
    rw [hflat'.mem_iff, List.mem_range'_1]
    omega

/-- C2 witness: for the concrete two-guide input `3 + 2` the flattened
assignment is a permutation of `{1..5}`. -/
theorem assignTicketsToGuides_partition_witness :
    ((assignTicketsToGuides [⟨1, 3⟩, ⟨2, 2⟩] rand0).flatMap
      GuideWithTickets.ticketNumbers).Perm
      (List.range' 1 (totalTicketCount [⟨1, 3⟩, ⟨2, 2⟩])) :=
  (assignTicketsToGuides_partition [⟨1, 3⟩, ⟨2, 2⟩] rand0 (by decide)
    (fun i => Nat.zero_le i)).2.2.1

theorem drawRandomTicket_sound (pool : List GuideWithTickets) (r : Nat → Nat)
    {w : GuideWithTickets} {t : Nat}
    (h : drawRandomTicket pool r = (some w, some t)) :
    w ∈ pool ∧ t ∈ w.ticketNumbers := by
  unfold drawRandomTicket at h
  by_cases he : flattenTickets pool = []
  · simp [he] at h
  · rw [if_neg he] at h
    cases hidx : (flattenTickets pool)[r (flattenTickets pool).length]? with
    | none => rw [hidx] at h; simp at h
    | some tg =>
      rw [hidx] at h
      simp only [Prod.mk.injEq, Option.some.injEq] at h
      obtain ⟨hw, ht⟩ := h
      have hmem : tg ∈ flattenTickets pool := List.getElem?_mem hidx
      unfold flattenTickets at hmem
      obtain ⟨g, hg, hmem'⟩ := List.mem_flatMap.1 hmem
      obtain ⟨t', ht', heq⟩ := List.mem_map.1 hmem'
      subst heq hw ht
      exact ⟨hg, ht'⟩

theorem drawRandomTicket_progress (pool : List GuideWithTickets) (r : Nat → Nat)
    (hne : flattenTickets pool ≠ [])
    (hr : r (flattenTickets pool).length < (flattenTickets pool).length) :
    ∃ w t, drawRandomTicket pool r = (some w, some t) := by
  unfold drawRandomTicket
  rw [if_neg hne, List.getElem?_eq_getElem hr]
  exact ⟨_, _, rfl⟩

theorem drawAux_winners_mem (rs : Nat → Nat → Nat) :
    ∀ (n step : Nat) (avail : List GuideWithTickets) (w : GuideWithTickets),
    w ∈ (drawRandomTicketsAux rs step n avail).winners → w ∈ avail := by
  intro n
  induction n with
  | zero => intro step avail w h; simp [drawRandomTicketsAux] at h
  | succ n ih =>
    intro step avail w h
    rw [drawRandomTicketsAux] at h
    by_cases he : avail = []
    · rw [if_pos he] at h; simp at h
    · rw [if_neg he] at h
      split at h
      · next w0 t0 heq =>
          split at h
          · dsimp only at h
            rcases List.mem_cons.1 h with rfl | hmem
            · exact (drawRandomTicket_sound avail (rs step) heq).1
            · exact List.erase_subset _ _ (ih (step + 1) _ w hmem)
          · exact ih (step + 1) _ w h
      · exact ih (step + 1) _ w h

theorem drawAux_winners_nodup (rs : Nat → Nat → Nat) :
    ∀ (n step : Nat) (avail : List GuideWithTickets), avail.Nodup →
    (drawRandomTicketsAux rs step n avail).winners.Nodup := by
  intro n
  induction n with
  | zero => intro step avail _; simp [drawRandomTicketsAux]
  | succ n ih =>
    intro step avail hnd
    rw [drawRandomTicketsAux]
    by_cases he : avail = []
    · rw [if_pos he]; simp
    · rw [if_neg he]
      split
      · next w0 t0 heq =>
          split
          · dsimp only
            refine List.nodup_cons.2 ⟨?_, ih (step + 1) _ (hnd.erase w0)⟩
            intro hmem
            exact hnd.not_mem_erase (drawAux_winners_mem rs n (step + 1) _ w0 hmem)
          · exact ih (step + 1) _ hnd
      · exact ih (step + 1) _ hnd

/-- C1: a draw session never reports the same participant twice: with a
duplicate-free pool (and in-range random indices), the winners list of
`drawRandomTickets` has no repeats. -/
theorem drawRandomTickets_no_double_win (pool : List GuideWithTickets)
    (count : Int) (rs : Nat → Nat → Nat) (hnd : pool.Nodup)
    (hr : ∀ k n, 0 < n → rs k n < n) :
    (drawRandomTickets pool count rs).winners.Nodup :=
  drawAux_winners_nodup rs count.toNat 0 pool hnd

/-- C1 witness: a concrete two-guide pool built by the allocator, drawn with
the constant random oracle. -/
theorem drawRandomTickets_no_double_win_witness :
    (drawRandomTickets (assignTicketsToGuides [⟨1, 3⟩, ⟨2, 2⟩] rand0) 2 rs0).winners.Nodup :=
  drawRandomTickets_no_double_win _ 2 rs0 (by decide)
    (fun _ n h => by simpa [rs0] using h)

theorem drawAux_lengths (rs : Nat → Nat → Nat) :
    ∀ (n step : Nat) (avail : List GuideWithTickets),
    (drawRandomTicketsAux rs step n avail).drawnTickets.length =
      (drawRandomTicketsAux rs step n avail).winners.length := by
  intro n
  induction n with
  | zero => intro step avail; rfl
  | succ n ih =>
    intro step avail
    rw [drawRandomTicketsAux]
    by_cases he : avail = []
    · rw [if_pos he]; rfl
    · rw [if_neg he]
      split
      · next w0 t0 heq =>
          split
          · dsimp only
            rw [List.length_cons, List.length_cons, ih (step + 1)]
          · exact ih (step + 1) avail
      · exact ih (step + 1) avail

theorem drawAux_zip_mem (rs : Nat → Nat → Nat) :
    ∀ (n step : Nat) (avail : List GuideWithTickets)
      (p : GuideWithTickets × Nat),
    p ∈ (drawRandomTicketsAux rs step n avail).winners.zip
      (drawRandomTicketsAux rs step n avail).drawnTickets →
    p.2 ∈ p.1.ticketNumbers := by
  intro n
  induction n with
  | zero => intro step avail p h; simp [drawRandomTicketsAux] at h
  | succ n ih =>
    intro step avail p h
    rw [drawRandomTicketsAux] at h
    by_cases he : avail = []
    · rw [if_pos he] at h; simp at h
    · rw [if_neg he] at h
      split at h
      · next w0 t0 heq =>
          split at h
          · dsimp only at h
            rw [List.zip_cons_cons] at h
            rcases List.mem_cons.1 h with rfl | hmem
            · exact (drawRandomTicket_sound avail (rs step) heq).2
            · exact ih (step + 1) _ p hmem
          · exact ih (step + 1) _ p h
      · exact ih (step + 1) _ p h

/-- C5: every recorded draw result pairs a winner with a ticket the winner
holds: `drawnTickets` and `winners` run in step, each drawn ticket is a
member of the paired winner's `ticketNumbers` (the guide records are never
modified during a session, so these are the allocator-computed sets), and
every winner is an element of the input pool. -/
theorem drawRandomTickets_ticket_ownership (pool : List GuideWithTickets)
    (count : Int) (rs : Nat → Nat → Nat) (hr : ∀ k n, 0 < n → rs k n < n) :
    (drawRandomTickets pool count rs).drawnTickets.length =
      (drawRandomTickets pool count rs).winners.length ∧
    (∀ p ∈ (drawRandomTickets pool count rs).winners.zip
      (drawRandomTickets pool count rs).drawnTickets, p.2 ∈ p.1.ticketNumbers) ∧
    ∀ w ∈ (drawRandomTickets pool count rs).winners, w ∈ pool :=
  ⟨drawAux_lengths rs count.toNat 0 pool,
    fun p hp => drawAux_zip_mem rs count.toNat 0 pool p hp,
    fun w hw => drawAux_winners_mem rs count.toNat 0 pool w hw⟩

/-- C5 witness: the length part of the ownership theorem at a concrete
allocator-produced pool. -/
theorem drawRandomTickets_ticket_ownership_witness :
    (drawRandomTickets (assignTicketsToGuides [⟨1, 3⟩, ⟨2, 2⟩] rand0) 5 rs0).drawnTickets.length =
      (drawRandomTickets (assignTicketsToGuides [⟨1, 3⟩, ⟨2, 2⟩] rand0) 5 rs0).winners.length :=
  (drawRandomTickets_ticket_ownership _ 5 rs0 (fun _ n h => by simpa [rs0] using h)).1

theorem countP_range_index {α : Type} (l : List α) (p : α → Bool) :
    (List.range l.length).countP
      (fun i => ((l[i]?).map p).getD false) = l.countP p := by
  induction l with
  | nil => simp
  | cons x xs ih =>
    rw [List.length_cons, List.range_succ_eq_map, List.countP_cons, List.countP_map,
      List.countP_cons]
    simp only [List.getElem?_cons_zero, List.getElem?_cons_succ, Function.comp_def,
      Option.map_some', Option.getD_some]
    rw [ih]

theorem mem_flatten_snd {pool : List GuideWithTickets} {g : GuideWithTickets}
    (h : g ∈ (flattenTickets pool).map Prod.snd) : g ∈ pool := by
  obtain ⟨tg, htg, rfl⟩ := List.mem_map.1 h
  unfold flattenTickets at htg
  obtain ⟨g', hg', hmem⟩ := List.mem_flatMap.1 htg
  obtain ⟨t', _, rfl⟩ := List.mem_map.1 hmem
  exact hg'

theorem flatten_snd_count : ∀ (pool : List GuideWithTickets), pool.Nodup →
    ∀ g ∈ pool, ((flattenTickets pool).map Prod.snd).count g = g.ticketNumbers.length
  | [], _, g, hg => by simp at hg
  | a :: rest, hnd, g, hg => by
    have hflat : flattenTickets (a :: rest) =
        (a.ticketNumbers.map fun t => (t, a)) ++ flattenTickets rest := by
      simp [flattenTickets]
    rw [hflat, List.map_append, List.count_append, List.map_map]
    have hconst : (a.ticketNumbers.map (Prod.snd ∘ fun t => (t, a))) =
        List.replicate a.ticketNumbers.length a := by
      rw [show (Prod.snd ∘ fun t : Nat => (t, a)) = fun _ => a from rfl, List.map_const']
    rw [hconst]
    rcases List.mem_cons.1 hg with rfl | hmem
    · rw [List.count_replicate_self]
      have hnot : g ∉ (flattenTickets rest).map Prod.snd := fun hc =>
        (List.nodup_cons.1 hnd).1 (mem_flatten_snd hc)
      rw [List.count_eq_zero_of_not_mem hnot]
      omega
    · have hne : a ≠ g := fun hc => (List.nodup_cons.1 hnd).1 (hc ▸ hmem)
      rw [List.count_replicate, if_neg (by simpa using hne),
        flatten_snd_count rest (List.nodup_cons.1 hnd).2 g hmem]
      omega

/-- C3: a single draw step is uniform over one entry per remaining ticket:
the candidate list has one entry per ticket of each pool member, and among
the `total` equally likely random indices exactly
`g.ticketNumbers.length` of them make `drawRandomTicket` return `g` — the
counting form of the probability
`(remaining tickets of g) / (total remaining tickets)`. -/
theorem drawRandomTicket_uniform_weight (pool : List GuideWithTickets)
    (g : GuideWithTickets) (hnd : pool.Nodup) (hg : g ∈ pool) :
    (flattenTickets pool).length =
      (pool.map (fun h => h.ticketNumbers.length)).sum ∧
    ((flattenTickets pool).map Prod.snd).count g = g.ticketNumbers.length ∧
    (List.range (flattenTickets pool).length).countP
      (fun idx => decide ((drawRandomTicket pool (fun _ => idx)).1 = some g)) =
      g.ticketNumbers.length := by
  refine ⟨?_, flatten_snd_count pool hnd g hg, ?_⟩
  · rw [flattenTickets, List.flatMap_def, List.length_flatten, List.map_map]
    congr 1
    apply List.map_congr_left
    intro h _
    simp
  · have hcong : (List.range (flattenTickets pool).length).countP
        (fun idx => decide ((drawRandomTicket pool (fun _ => idx)).1 = some g)) =
        (List.range (flattenTickets pool).length).countP
          (fun idx => (((flattenTickets pool)[idx]?).map
            (fun x => decide (x.2 = g))).getD false) := by
      apply List.countP_congr
      intro idx hidx
      have hlt : idx < (flattenTickets pool).length := List.mem_range.1 hidx
      have hne : flattenTickets pool ≠ [] := by
        intro hc
        rw [hc] at hlt
        simp at hlt
      rw [List.getElem?_eq_getElem hlt]
      unfold drawRandomTicket
      rw [if_neg hne, List.getElem?_eq_getElem hlt]
      simp
    have h2 : (flattenTickets pool).countP (fun x => decide (x.2 = g)) =
        ((flattenTickets pool).map Prod.snd).count g := by
      rw [List.count_eq_countP, List.countP_map]
      apply List.countP_congr
      intro x _
      simp [Function.comp_def]
    exact hcong.trans ((countP_range_index (flattenTickets pool)
      (fun x => decide (x.2 = g))).trans (h2.trans (flatten_snd_count pool hnd g hg)))

/-- C3 witness: in the two-guide allocator pool, the first guide owns three
of the five candidate entries. -/
theorem drawRandomTicket_uniform_weight_witness :
    ((flattenTickets (assignTicketsToGuides [⟨1, 3⟩, ⟨2, 2⟩] rand0)).map Prod.snd).count
      ⟨1, 3, [2, 3, 4], (2, 4)⟩ =
      (GuideWithTickets.ticketNumbers ⟨1, 3, [2, 3, 4], (2, 4)⟩).length :=
  (drawRandomTicket_uniform_weight _ _ (by decide) (by decide)).2.1

theorem flatten_nil_iff (pool : List GuideWithTickets) :
    flattenTickets pool = [] ↔ ∀ g ∈ pool, g.ticketNumbers = [] := by
  unfold flattenTickets
  rw [List.flatMap_eq_nil_iff]
  constructor
  · intro h g hg
    simpa using h g hg
  · intro h g hg
    rw [h g hg]
    rfl

theorem drawAux_flatten_nil (rs : Nat → Nat → Nat) :
    ∀ (n step : Nat) (avail : List GuideWithTickets),
    flattenTickets avail = [] →
    drawRandomTicketsAux rs step n avail = ⟨[], []⟩ := by
  intro n
  induction n with
  | zero => intro step avail _; rfl
  | succ n ih =>
    intro step avail hfl
    rw [drawRandomTicketsAux]
    by_cases he : avail = []
    · rw [if_pos he]
    · rw [if_neg he]
      have hdr : drawRandomTicket avail (rs step) = (none, none) := by
        unfold drawRandomTicket
        rw [if_pos hfl]
      rw [hdr]
      exact ih (step + 1) avail hfl

theorem filter_length_erase (avail : List GuideWithTickets) (w : GuideWithTickets)
    (hw : w ∈ avail) (hwt : w.ticketNumbers ≠ []) :
    (avail.filter (fun g => !g.ticketNumbers.isEmpty)).length =
      ((avail.erase w).filter (fun g => !g.ticketNumbers.isEmpty)).length + 1 := by
  have hperm := List.perm_cons_erase hw
  rw [(hperm.filter (fun g => !g.ticketNumbers.isEmpty)).length_eq, List.filter_cons]
  have hpw : (!w.ticketNumbers.isEmpty) = true := by
    simpa [List.isEmpty_iff] using hwt
  rw [if_pos hpw, List.length_cons]

theorem drawAux_winners_length (rs : Nat → Nat → Nat)
    (hr : ∀ k n, 0 < n → rs k n < n) :
    ∀ (n step : Nat) (avail : List GuideWithTickets),
    avail.length ≤ n →
    (∀ g ∈ avail, ∀ t ∈ g.ticketNumbers, 0 < t) →
    (drawRandomTicketsAux rs step n avail).winners.length =
      (avail.filter (fun g => !g.ticketNumbers.isEmpty)).length := by
  intro n
  induction n with
  | zero =>
    intro step avail hlen _
    have he : avail = [] := List.length_eq_zero.1 (Nat.le_zero.1 hlen)
    subst he
    rfl
  | succ n ih =>
    intro step avail hlen hpos
    by_cases he : avail = []
    · subst he
      rw [drawRandomTicketsAux]
      rfl
    · by_cases hfl : flattenTickets avail = []
      · rw [drawAux_flatten_nil rs (n + 1) step avail hfl]
        have hnil : avail.filter (fun g => !g.ticketNumbers.isEmpty) = [] := by
          rw [List.filter_eq_nil_iff]
          intro a ha
          simp [(flatten_nil_iff avail).1 hfl a ha]
        rw [hnil]
      · have hlt : rs step (flattenTickets avail).length < (flattenTickets avail).length :=
          hr step _ (List.length_pos.2 hfl)
        obtain ⟨w, t, heq⟩ := drawRandomTicket_progress avail (rs step) hfl hlt
        obtain ⟨hwmem, htmem⟩ := drawRandomTicket_sound avail (rs step) heq
        have ht0 : t ≠ 0 := Nat.pos_iff_ne_zero.1 (hpos w hwmem t htmem)
        have hwt : w.ticketNumbers ≠ [] := by
          intro hc
          rw [hc] at htmem
          simp at htmem
        rw [drawRandomTicketsAux, if_neg he, heq]
        dsimp only
        rw [if_pos ht0]
        dsimp only
        rw [List.length_cons,
          ih (step + 1) (avail.erase w)
            (by rw [List.length_erase_of_mem hwmem]; omega)
            (fun g hg => hpos g (List.erase_subset _ _ hg)),
          filter_length_erase avail w hwmem hwt]

/-- C4 counterexample: the allocator pool of a single guide with zero
tickets has one distinct participant, yet `drawWinners` with count `5`
returns no results at all (the zero-ticket guide can never be drawn), so
the returned length is not the number of distinct participants. -/
theorem drawWinners_short_cex :
    (drawRandomTickets (assignTicketsToGuides [⟨1, 0⟩] rand0) 5 rs0).winners.length = 0 ∧
      (assignTicketsToGuides [⟨1, 0⟩] rand0).length = 1 := by
  decide

/-- C4 (amended): when `count` exceeds the pool size, the winners list has
one entry per pool member that holds at least one ticket (for
allocator-produced pools where every participant holds a ticket this is the
number of distinct participants, but zero-ticket participants are skipped,
not reported). -/
theorem drawRandomTickets_exhaustion (pool : List GuideWithTickets)
    (count : Int) (rs : Nat → Nat → Nat)
    (hr : ∀ k n, 0 < n → rs k n < n)
    (hpos : ∀ g ∈ pool, ∀ t ∈ g.ticketNumbers, 0 < t)
    (hc : (pool.length : Int) < count) :
    (drawRandomTickets pool count rs).winners.length =
      (pool.filter (fun g => !g.ticketNumbers.isEmpty)).length := by
  apply drawAux_winners_length rs hr count.toNat 0 pool ?_ hpos
  omega

/-- C4 witness: the two-guide allocator pool with count `5` produces
exactly two winners. -/
theorem drawRandomTickets_exhaustion_witness :
    (drawRandomTickets (assignTicketsToGuides [⟨1, 3⟩, ⟨2, 2⟩] rand0) 5 rs0).winners.length =
      ((assignTicketsToGuides [⟨1, 3⟩, ⟨2, 2⟩] rand0).filter
        (fun g => !g.ticketNumbers.isEmpty)).length :=
  drawRandomTickets_exhaustion _ 5 rs0 (fun _ n h => by simpa [rs0] using h)
    (by decide) (by decide)

theorem listSwap_eq_specSwap (l : List Nat) (i j : Nat) :
    listSwap l i j = specSwap l i j := by
  apply List.ext_getElem?
  intro n
  rw [listSwap, specSwap, List.getElem?_mapIdx, List.getElem?_set, List.getElem?_set]
  by_cases hn : n < l.length
  · rw [List.getElem?_eq_getElem hn]
    by_cases hni : n = i <;> by_cases hnj : n = j
    · subst hni
      subst hnj
      simp [hn]
    · subst hni
      simp [hn, Ne.symm hnj, hnj]
    · subst hnj
      simp [hn, Ne.symm hni, hni]
    · simp [hn, Ne.symm hni, hni, Ne.symm hnj, hnj]
  · have hn' : l.length ≤ n := Nat.le_of_not_lt hn
    rw [List.getElem?_eq_none hn']
    by_cases hjn : j = n <;> by_cases hin : i = n
    · subst hjn
      simp [Nat.not_lt.2 hn']
    · subst hjn
      simp [Nat.not_lt.2 hn']
    · subst hin
      simp [hjn, Nat.not_lt.2 hn', List.getElem?_eq_none hn']
    · simp [hjn, hin, List.getElem?_eq_none hn']

theorem fyLoop_eq_specFyLoop (rand : Nat → Nat) :
    ∀ (i : Nat) (l : List Nat), fyLoop rand i l = specFyLoop rand i l
  | 0, _ => rfl
  | i + 1, l => by
    rw [fyLoop, specFyLoop, listSwap_eq_specSwap, fyLoop_eq_specFyLoop rand i]

/-- C6: the allocator's shuffle is the textbook Fisher–Yates variant: given
the same random choices (each chosen uniformly in `[0, i]`), every single
swap step and the whole loop agree with the spec-modelled reference
algorithm. -/
theorem fisherYates_refines_spec (rand : Nat → Nat) (hr : ∀ i, rand i ≤ i) :
    (∀ (l : List Nat) (i : Nat), listSwap l i (rand i) = specSwap l i (rand i)) ∧
    ∀ l : List Nat, fisherYatesShuffle rand l = specFisherYates rand l :=
  ⟨fun l i => listSwap_eq_specSwap l i (rand i),
    fun l => fyLoop_eq_specFyLoop rand (l.length - 1) l⟩

/-- C6 witness: the source shuffle and the reference shuffle agree on a
concrete list under the constant random oracle. -/
theorem fisherYates_refines_spec_witness :
    fisherYatesShuffle rand0 [5, 1, 4, 2] = specFisherYates rand0 [5, 1, 4, 2] :=
  (fisherYates_refines_spec rand0 (fun i => Nat.zero_le i)).2 [5, 1, 4, 2]

theorem assignLoop_nonpos : ∀ (gs : List Guide) (tickets : List Nat),
    List.Forall₂ (fun (out : GuideWithTickets) (g : Guide) =>
      g.totalTickets ≤ 0 → out.ticketNumbers = []) (assignLoop gs tickets) gs
  | [], _ => List.Forall₂.nil
  | g :: gs, tickets => by
    refine List.Forall₂.cons ?_ (assignLoop_nonpos gs _)
    intro hle
    have h0 : g.totalTickets.toNat = 0 := Int.toNat_of_nonpos hle
    simp [buildGuide, h0]

/-- C7 counterexample: a guide with the negative ticket count `-3` does not
make the allocator fail with `InvalidInputError`; it returns normally, the
guide simply receiving no tickets. -/
theorem allocate_no_validation_cex :
    assignTicketsToGuidesE [⟨1, -3⟩] rand0 = Except.ok [⟨1, -3, [], (0, 0)⟩] ∧
    assignTicketsToGuidesE [⟨1, -3⟩] rand0 ≠ Except.error TicketError.invalidInput :=
  ⟨rfl, fun h => Except.noConfusion h⟩

/-- C7 (amended): the allocator performs no input validation and never
fails: every input (negative counts included) returns `Except.ok`, and a
guide whose ticket count is not positive simply receives the empty ticket
list (while shrinking the shared total `N`). -/
theorem allocate_no_validation (guides : List Guide) (rand : Nat → Nat) :
    assignTicketsToGuidesE guides rand =
      Except.ok (assignTicketsToGuides guides rand) ∧
    List.Forall₂ (fun (out : GuideWithTickets) (g : Guide) =>
      g.totalTickets ≤ 0 → out.ticketNumbers = [])
      (assignTicketsToGuides guides rand) guides :=
  ⟨rfl, assignLoop_nonpos guides _⟩

/-- C8 counterexample: a requested winner count of `0` (which is `≤ 0`) does
not make `drawRandomTickets` fail with `InvalidInputError`; it returns
empty results normally. -/
theorem drawWinners_no_validation_cex :
    drawRandomTicketsE [⟨1, 1, [1], (1, 1)⟩] 0 rs0 = Except.ok ⟨[], []⟩ ∧
    drawRandomTicketsE [⟨1, 1, [1], (1, 1)⟩] 0 rs0 ≠
      Except.error TicketError.invalidInput :=
  ⟨rfl, fun h => Except.noConfusion h⟩

/-- C8 (amended): a non-positive `count` is not validated and never raises:
the draw loop body runs zero times and `drawRandomTickets` returns empty
results normally. -/
theorem drawWinners_nonpos_count (pool : List GuideWithTickets) (count : Int)
    (rs : Nat → Nat → Nat) (hc : count ≤ 0) :
    drawRandomTicketsE pool count rs = Except.ok ⟨[], []⟩ := by
  have h0 : count.toNat = 0 := Int.toNat_of_nonpos hc
  unfold drawRandomTicketsE drawRandomTickets
  rw [h0]
  rfl

/-- C8 witness: a negative count on a non-empty pool returns empty results. -/
theorem drawWinners_nonpos_count_witness :
    drawRandomTicketsE [⟨1, 1, [1], (1, 1)⟩] (-2) rs0 = Except.ok ⟨[], []⟩ :=
  drawWinners_nonpos_count _ (-2) rs0 (by decide)

theorem hDrawAux_frame (rs : Nat → Nat → Nat) (m : Nat) :
    ∀ (n step : Nat) (σ : Heap),
    (hDrawAux rs m step n σ).1.ticketArrays = σ.ticketArrays ∧
    ∀ k, k ≠ m → (hDrawAux rs m step n σ).1.guideArrays k = σ.guideArrays k := by
  intro n
  induction n with
  | zero => intro step σ; exact ⟨rfl, fun _ _ => rfl⟩
  | succ n ih =>
    intro step σ
    rw [hDrawAux]
    by_cases he : σ.guideArrays m = []
    · rw [if_pos he]
      exact ⟨rfl, fun _ _ => rfl⟩
    · rw [if_neg he]
      split

      · next w0 t0 heq =>
          split
          · dsimp only
            obtain ⟨ht, hg⟩ := ih (step + 1) (writeGuideArray σ m ((σ.guideArrays m).erase w0))
            refine ⟨ht, fun k hk => ?_⟩
            rw [hg k hk]
            simp [writeGuideArray, hk]
          · exact ih (step + 1) σ
      · exact ih (step + 1) σ

/-- C10: a draw session never mutates its inputs: in the heap model every
ticket-number array is untouched (so each participant's `ticketNumbers` is
unchanged) and every guide array other than the freshly allocated internal
copy at location `σ.fresh` is untouched — in particular the caller's pool
array (length and order included), which lives at an already-allocated
location, is unchanged; winners are evicted only from the fresh copy.
`hDrawRandomTicket` cannot write at all: its type returns no heap. -/
theorem drawRandomTickets_no_mutation (σ : Heap) (poolLoc : Nat) (count : Int)
    (rs : Nat → Nat → Nat) :
    (hDrawRandomTickets σ poolLoc count rs).1.ticketArrays = σ.ticketArrays ∧
    ∀ k, k ≠ σ.fresh →
      (hDrawRandomTickets σ poolLoc count rs).1.guideArrays k =
        σ.guideArrays k := by
  unfold hDrawRandomTickets
  obtain ⟨ht, hg⟩ := hDrawAux_frame rs σ.fresh count.toNat 0
    { writeGuideArray σ σ.fresh (σ.guideArrays poolLoc) with fresh := σ.fresh + 1 }
  refine ⟨ht, fun k hk => ?_⟩
  rw [hg k hk]
  simp [writeGuideArray, hk]

/-- C10 witness: concretely, the caller's pool array at location `0` is
unchanged by a two-winner draw session. -/
theorem drawRandomTickets_no_mutation_witness :
    (hDrawRandomTickets heap0 0 2 rs0).1.guideArrays 0 = heap0.guideArrays 0 :=
  (drawRandomTickets_no_mutation heap0 0 2 rs0).2 0 (by decide)

/-- C9: empty inputs yield empty-but-valid results: `allocate []` returns
the empty list and `drawWinners` on an empty pool returns empty results for
every requested count, normally (never an error). -/
theorem empty_inputs_ok (rand : Nat → Nat) (count : Int) (rs : Nat → Nat → Nat) :
    assignTicketsToGuidesE [] rand = Except.ok [] ∧
      drawRandomTicketsE [] count rs = Except.ok ⟨[], []⟩ := by
  constructor
  · rfl
  · show Except.ok (drawRandomTicketsAux rs 0 count.toNat []) = _
    cases h : count.toNat with
    | zero => rfl
    | succ n => rfl

end TicketSystem
